import Mathlib

/-!
Shallow embedding of `src/framework/src/lib.rs` (crate `framework` of
Masterchef365/web-transport-test).

The file models, faithfully to the Rust source:
  * the error enum `FrameworkError` (three variants: `Bincode`, `WebSocket`, `Io`);
  * `Framework::new` / `Framework::get_next_id` (the identity allocator;
    `usize` arithmetic is modelled as `Nat` reduced modulo `2 ^ w` for the
    pointer width `w`, matching release-mode wrapping);
  * the two forwarding loops spawned by `webtransport_futures_bridge`
    (loop A: duplex read → network write, with its fixed 4096-byte buffer and
    `truncate`; loop B: network read → duplex write, where the tokio duplex
    write may accept only a prefix of the supplied bytes when the buffer is
    nearly full — the semantics of `AsyncWriteExt::write` on a
    `tokio::io::duplex` of capacity `BUFFER_SIZE`);
  * the framing layer `LengthDelimitedCodec::default()` used by
    `webtransport_protocol` (4-byte big-endian length prefix, maximum frame
    length 8 MiB, an `io` error on an oversized frame or on end-of-stream in
    the middle of a frame);
  * the bincode (v1, `bincode::serialize` / `bincode::deserialize`, fixed-width
    little-endian integer) codec behind `encode` / `decode`, over a universe of
    serde-representable values (u8, u64, bool, byte vectors, pairs, options,
    sequences).
-/

/-! ## Error model: `FrameworkError` and its variants -/

/-- Kinds of `std::io::Error` that the framework's code paths can surface:
`BrokenPipe` (write on a duplex whose other half is gone), `UnexpectedEof`,
`InvalidData` (LengthDelimitedCodec's oversized-frame error), and the
catch-all `Other` used by tokio-util's "bytes remaining on stream". -/
inductive IOErrorKind where
  | brokenPipe
  | unexpectedEof
  | invalidData
  | other
deriving DecidableEq, Repr

/-- Model of `bincode::Error` (bincode 1.x `ErrorKind`), restricted to the
cases reachable from this crate's `encode`/`decode`. -/
inductive BincodeError where
  | invalidBoolEncoding (b : Nat)
  | invalidTagEncoding (t : Nat)
  | io (k : IOErrorKind)
  | custom
deriving DecidableEq, Repr

/-- Model of `web_transport::Error` (an opaque session/stream failure). -/
inductive WebTransportError where
  | session (code : Nat)
  | stream (code : Nat)
deriving DecidableEq, Repr

/-- The error enum of `src/framework/src/lib.rs` lines 113–123: exactly three
variants, `Bincode(bincode::Error)`, `WebSocket(web_transport::Error)` and
`Io(std::io::Error)`. -/
inductive FrameworkError where
  | bincode (e : BincodeError)
  | webSocket (e : WebTransportError)
  | io (e : IOErrorKind)
deriving DecidableEq, Repr

/-- The constructor tags of `FrameworkError`: the distinctions the tagged
error type is able to make. -/
inductive FrameworkErrorTag where
  | bincodeTag
  | webSocketTag
  | ioTag
deriving DecidableEq, Repr, Fintype

/-- Which variant of `FrameworkError` an error value carries. -/
def tagOf : FrameworkError → FrameworkErrorTag
  | .bincode _ => .bincodeTag
  | .webSocket _ => .webSocketTag
  | .io _ => .ioTag

/-- The four failure domains of the spec's error taxonomy (§7):
serialization, framing, network/session, closed-transport. -/
inductive ErrorDomain where
  | serialization
  | framing
  | network
  | closed
deriving DecidableEq, Repr, Fintype

/-! ## Identity allocator: `Framework::new` / `Framework::get_next_id` -/

/-- The `next_id` field of a freshly constructed `Framework`
(`Framework::new` sets `next_id: 0`). -/
def Framework.newNextId : Nat := 0

/-- `Framework::get_next_id`: `let next = self.next_id + 1;
std::mem::replace(&mut self.next_id, next)` — returns the PREVIOUS counter
value and stores the incremented one.  `usize` addition wraps modulo `2 ^ w`
(`w` = pointer width, 64 on native, 32 on wasm32).  Result: (returned id,
new `next_id` state). -/
def Framework.get_next_id (w : Nat) (next_id : Nat) : Nat × Nat :=
  (next_id, (next_id + 1) % 2 ^ w)

/-- State of the counter after `k` allocations from a fresh `Framework`. -/
def Framework.stateAfter (w : Nat) : Nat → Nat
  | 0 => Framework.newNextId
  | k + 1 => (Framework.get_next_id w (Framework.stateAfter w k)).2

/-- The identity returned by the `k`-th allocation (0-indexed) from a fresh
`Framework`: `get_next_id` returns the state before its increment. -/
def Framework.nthId (w : Nat) (k : Nat) : Nat :=
  (Framework.get_next_id w (Framework.stateAfter w k)).1

/-! ## The two forwarding loops of `webtransport_futures_bridge` -/

/-- `const BUFFER_SIZE: usize = 4096` — duplex capacity and loop-A read
buffer size. -/
def BUFFER_SIZE : Nat := 4096

/-- `const MAX_READ_BYTES: usize = 4096` — bound passed to `rx.read`. -/
def MAX_READ_BYTES : Nat := 4096

/-- One loop-A iteration's network write, given the `n` bytes the duplex read
returned: the code allocates `vec![0_u8; BUFFER_SIZE]`, the read fills its
prefix with `data`, `buf.truncate(n_bytes_read)` cuts it back, and the
truncated buffer is what `tx.write` receives. -/
def loopAChunk (data : List Nat) : List Nat :=
  (data ++ List.replicate (BUFFER_SIZE - data.length) 0).take data.length

/-- One scheduling step of loop A, as observed through its reads and writes:
either the duplex read fails with an I/O error, or it returns `bs` bytes
(`bs = []` models end-of-stream, where `read` returns `Ok(0)`) and the
subsequent network write either succeeds (`writeOk = true`) or fails. -/
inductive AStep where
  | readErr
  | readOk (bs : List Nat) (writeOk : Bool)
deriving DecidableEq, Repr

/-- Loop A of `webtransport_futures_bridge` run against a finite trace of
scheduling steps.  Returns the network writes it performed and whether the
loop terminated within the trace.  Faithful to the source: the loop body has
no break — it exits only through `?` on a read error or a write error; a read
returning 0 bytes (local end-of-stream) truncates the buffer to empty and
still calls `tx.write`. -/
def loopARun : List AStep → List (List Nat) × Bool
  | [] => ([], false)
  | .readErr :: _ => ([], true)
  | .readOk bs false :: _ => ([loopAChunk bs], true)
  | .readOk bs true :: rest =>
      let r := loopARun rest
      (loopAChunk bs :: r.1, r.2)

/-- One `AsyncWriteExt::write` call on the write half of a
`tokio::io::duplex(BUFFER_SIZE)` whose buffer currently holds `occ` bytes:
the write stores `min (length b) (BUFFER_SIZE - occ)` bytes — the PREFIX of
`b` that fits — and returns that count.  (When the buffer is full the call
suspends until the reader drains some bytes; callers of this model account
for draining before invoking it.) -/
def duplexWriteChunk (occ : Nat) (b : List Nat) : List Nat :=
  b.take (BUFFER_SIZE - occ)

/-- Loop B of `webtransport_futures_bridge` run over the fragments returned
by successive `rx.read(MAX_READ_BYTES)` calls, with `drains k` bytes removed
from the duplex buffer by the local reader before the `k`-th write.  Returns
every byte the loop delivers into the duplex (the bytes that become readable
on the local side).  Faithful to the source: the loop calls
`writehalf.write(bytes.as_ref()).await?` and DISCARDS the returned count, so
of each fragment only the prefix accepted by the single write call is
delivered. -/
def loopBRun : List (List Nat) → List Nat → Nat → List Nat
  | [], _, _ => []
  | f :: fs, [], occ =>
      duplexWriteChunk occ f ++
        loopBRun fs [] (occ + (duplexWriteChunk occ f).length)
  | f :: fs, d :: ds, occ =>
      duplexWriteChunk (occ - d) f ++
        loopBRun fs ds (occ - d + (duplexWriteChunk (occ - d) f).length)

/-! ## Framing: `LengthDelimitedCodec::default()` -/

/-- `LengthDelimitedCodec`'s default `max_frame_length`: 8 MiB. -/
def maxFrameLen : Nat := 8 * 1024 * 1024

/-- The default 4-byte big-endian length field written before a payload. -/
def toBE4 (n : Nat) : List Nat :=
  [n / 16777216 % 256, n / 65536 % 256, n / 256 % 256, n % 256]

/-- Reading a 4-byte big-endian length field (0 on a short list; callers
check the length first). -/
def fromBE4 : List Nat → Nat
  | b0 :: b1 :: b2 :: b3 :: _ => b0 * 16777216 + b1 * 65536 + b2 * 256 + b3
  | _ => 0

/-- `LengthDelimitedCodec::encode`: errors with an `InvalidData` I/O error
when the payload exceeds `max_frame_length`, otherwise emits the length
prefix followed by exactly the payload bytes. -/
def encodeFrame (p : List Nat) : Except FrameworkError (List Nat) :=
  if p.length > maxFrameLen then .error (.io .invalidData)
  else .ok (toBE4 p.length ++ p)

/-- Writing a sequence of payloads through the framed sink, concatenating the
emitted frames onto the byte stream. -/
def writeFrames : List (List Nat) → Except FrameworkError (List Nat)
  | [] => .ok []
  | p :: ps =>
      match encodeFrame p, writeFrames ps with
      | .ok f, .ok s => .ok (f ++ s)
      | .error e, _ => .error e
      | _, .error e => .error e

/-- The byte stream produced by framing a list of payloads in order: each
payload preceded by its 4-byte big-endian length prefix. -/
def framesBytes : List (List Nat) → List Nat
  | [] => []
  | p :: ps => toBE4 p.length ++ p ++ framesBytes ps

/-- Concatenation of a list of byte fragments, in order. -/
def concatAll : List (List Nat) → List Nat
  | [] => []
  | f :: fs => f ++ concatAll fs

/-- `FramedRead` with `LengthDelimitedCodec::default()` consuming a byte
stream that has ended: repeatedly reads a 4-byte big-endian length `n`
(error `InvalidData` if `n > max_frame_length`), then takes `n` payload
bytes.  Bytes left over at end-of-stream — a truncated length field or a
payload shorter than its declared length — raise the codec's
"bytes remaining on stream" I/O error (`Other`), never a partial frame. -/
def readFrames (s : List Nat) : Except FrameworkError (List (List Nat)) :=
  if s.length < 4 then
    if s.length = 0 then .ok [] else .error (.io .other)
  else if fromBE4 s > maxFrameLen then .error (.io .invalidData)
  else if hn : 4 + fromBE4 s ≤ s.length then
    match readFrames (s.drop (4 + fromBE4 s)) with
    | .ok ps => .ok ((s.drop 4).take (fromBE4 s) :: ps)
    | .error e => .error e
  else .error (.io .other)
termination_by s.length
decreasing_by
  simp only [List.length_drop]
  omega

/-! ## Serialization: bincode 1.x (`bincode::serialize` / `bincode::deserialize`)

`bincode::serialize` uses the legacy configuration: fixed-width little-endian
integers, `u64` length prefixes for sequences, a one-byte tag for `Option`
and `bool`.  The codec is modelled type-directed over a universe of
serde-representable values. -/

/-- `2 ^ 64`, the modulus of `u64`/`usize` length fields. -/
def U64MOD : Nat := 18446744073709551616

/-- Serde type shapes the modelled codec can (de)serialize. -/
inductive BTy where
  | u8T
  | u64T
  | boolT
  | bytesT
  | pairT (a b : BTy)
  | optT (a : BTy)
  | seqT (a : BTy)
deriving DecidableEq, Repr

/-- Values of the modelled serde universe.  `u8V`/`u64V` carry the numeric
value, `bytesV` a `Vec<u8>`, `pairV` a two-field struct/tuple, `optV` an
`Option`, `seqV` a `Vec` of homogeneous elements. -/
inductive BValue where
  | u8V (n : Nat)
  | u64V (n : Nat)
  | boolV (b : Bool)
  | bytesV (bs : List Nat)
  | pairV (a b : BValue)
  | optV (o : Option BValue)
  | seqV (vs : List BValue)

/-- A `u64` written as 8 fixed-width little-endian bytes. -/
def encodeU64 (n : Nat) : List Nat :=
  [n % 256, n / 256 % 256, n / 65536 % 256, n / 16777216 % 256,
   n / 4294967296 % 256, n / 1099511627776 % 256,
   n / 281474976710656 % 256, n / 72057594037927936 % 256]

/-- Reading 8 little-endian bytes as a `u64`; `UnexpectedEof` via `Io` when
fewer than 8 bytes remain. -/
def decodeU64 : List Nat → Except BincodeError (Nat × List Nat)
  | b0 :: b1 :: b2 :: b3 :: b4 :: b5 :: b6 :: b7 :: rest =>
      .ok (b0 + b1 * 256 + b2 * 65536 + b3 * 16777216 +
           b4 * 4294967296 + b5 * 1099511627776 +
           b6 * 281474976710656 + b7 * 72057594037927936, rest)
  | _ => .error (.io .unexpectedEof)

mutual

/-- `encode` of `src/framework/src/lib.rs` lines 127–129
(`bincode::serialize`): u8 → 1 byte; u64 → 8 bytes LE; bool → `0`/`1`;
`Vec<u8>` → u64 length then the raw bytes; a pair → the two fields in order;
`Option` → tag byte `0`/`1` then the payload; `Vec<T>` → u64 length then the
elements in order. -/
def encode : BValue → List Nat
  | .u8V n => [n % 256]
  | .u64V n => encodeU64 n
  | .boolV b => [if b then 1 else 0]
  | .bytesV bs => encodeU64 bs.length ++ bs
  | .pairV a b => encode a ++ encode b
  | .optV none => [0]
  | .optV (some v) => 1 :: encode v
  | .seqV vs => encodeU64 vs.length ++ encodeList vs

/-- Serialization of a sequence's elements, in order. -/
def encodeList : List BValue → List Nat
  | [] => []
  | v :: vs => encode v ++ encodeList vs

end

mutual

/-- Serde-level reader behind `decode` (`bincode::deserialize`): consumes the
encoding of one value of shape `t` from the front of the byte list, returning
the value and the remaining bytes; fails on truncated input or an invalid
`bool`/`Option` tag, never yielding a partially decoded value. -/
def decodeVal : BTy → List Nat → Except BincodeError (BValue × List Nat)
  | .u8T, b :: rest => .ok (.u8V b, rest)
  | .u8T, [] => .error (.io .unexpectedEof)
  | .u64T, s =>
      match decodeU64 s with
      | .ok (n, r) => .ok (.u64V n, r)
      | .error e => .error e
  | .boolT, b :: rest =>
      if b = 0 then .ok (.boolV false, rest)
      else if b = 1 then .ok (.boolV true, rest)
      else .error (.invalidBoolEncoding b)
  | .boolT, [] => .error (.io .unexpectedEof)
  | .bytesT, s =>
      match decodeU64 s with
      | .ok (n, r) =>
          if n ≤ r.length then .ok (.bytesV (r.take n), r.drop n)
          else .error (.io .unexpectedEof)
      | .error e => .error e
  | .pairT a b, s =>
      match decodeVal a s with
      | .ok (x, r1) =>
          match decodeVal b r1 with
          | .ok (y, r2) => .ok (.pairV x y, r2)
          | .error e => .error e
      | .error e => .error e
  | .optT t, s =>
      match s with
      | 0 :: rest => .ok (.optV none, rest)
      | 1 :: rest =>
          match decodeVal t rest with
          | .ok (v, r) => .ok (.optV (some v), r)
          | .error e => .error e
      | b :: _ => .error (.invalidTagEncoding b)
      | [] => .error (.io .unexpectedEof)
  | .seqT t, s =>
      match decodeU64 s with
      | .ok (n, r) =>
          match decodeSeq t n r with
          | .ok (vs, r2) => .ok (.seqV vs, r2)
          | .error e => .error e
      | .error e => .error e
termination_by t _ => (sizeOf t, 0)

/-- Reading `k` consecutive elements of shape `t`. -/
def decodeSeq : BTy → Nat → List Nat → Except BincodeError (List BValue × List Nat)
  | _, 0, s => .ok ([], s)
  | t, k + 1, s =>
      match decodeVal t s with
      | .ok (v, r) =>
          match decodeSeq t k r with
          | .ok (vs, r2) => .ok (v :: vs, r2)
          | .error e => .error e
      | .error e => .error e
termination_by t k _ => (sizeOf t, k + 1)

end

/-- `decode` of `src/framework/src/lib.rs` lines 133–135
(`bincode::deserialize` at shape `t`): reads one value from the byte list
(trailing bytes are permitted by bincode's legacy configuration). -/
def decode (t : BTy) (bytes : List Nat) : Except BincodeError BValue :=
  match decodeVal t bytes with
  | .ok (v, _) => .ok v
  | .error e => .error e

/-- The values of shape `t` actually representable by the Rust types the
codec serializes: numeric fields lie below their machine width and sequence
lengths fit in the `u64` length prefix. -/
inductive WellTyped : BValue → BTy → Prop where
  | u8 {n : Nat} : n < 256 → WellTyped (.u8V n) .u8T
  | u64 {n : Nat} : n < U64MOD → WellTyped (.u64V n) .u64T
  | bool {b : Bool} : WellTyped (.boolV b) .boolT
  | bytes {bs : List Nat} : (∀ x ∈ bs, x < 256) → bs.length < U64MOD →
      WellTyped (.bytesV bs) .bytesT
  | pair {a b : BValue} {s t : BTy} : WellTyped a s → WellTyped b t →
      WellTyped (.pairV a b) (.pairT s t)
  | optNone {t : BTy} : WellTyped (.optV none) (.optT t)
  | optSome {v : BValue} {t : BTy} : WellTyped v t →
      WellTyped (.optV (some v)) (.optT t)
  | seq {vs : List BValue} {t : BTy} : (∀ v ∈ vs, WellTyped v t) →
      vs.length < U64MOD → WellTyped (.seqV vs) (.seqT t)

/-! ## The transport of `webtransport_protocol` -/

/-- The sink direction of `webtransport_protocol`: `with` first applies
`encode` (total on the modelled universe), then `LengthDelimitedCodec`
checks the payload against `max_frame_length` (an `InvalidData` I/O error if
oversized) and flushes the frame into the duplex — a write on a duplex whose
other half is gone fails with a `BrokenPipe` I/O error, surfaced through
`FrameworkError::Io` by `sink_map_err`.  Returns the frame bytes put on the
wire. -/
def transportSend (closed : Bool) (v : BValue) : Except FrameworkError (List Nat) :=
  let payload := encode v
  if payload.length > maxFrameLen then .error (.io .invalidData)
  else if closed then .error (.io .brokenPipe)
  else .ok (toBE4 payload.length ++ payload)

/-- The stream direction of `webtransport_protocol` once the duplex has
reached end-of-stream, with `pending` bytes still buffered: `FramedRead`
yields `none` (stream end) on an empty buffer, the "bytes remaining on
stream" I/O error on a truncated frame, and otherwise one whole frame, which
`decode` turns into a typed value (its failure surfaced through
`FrameworkError::Bincode`). -/
def transportRecvAtEof (t : BTy) (pending : List Nat) : Except FrameworkError (Option BValue) :=
  if pending.length = 0 then .ok none
  else if pending.length < 4 then .error (.io .other)
  else
    let n := fromBE4 pending
    if n > maxFrameLen then .error (.io .invalidData)
    else if 4 + n ≤ pending.length then
      match decode t ((pending.drop 4).take n) with
      | .ok v => .ok (some v)
      | .error e => .error (.bincode e)
    else .error (.io .other)

/-! ## Helper lemmas -/

theorem decodeU64_encodeU64 {n : Nat} (h : n < U64MOD) (r : List Nat) :
    decodeU64 (encodeU64 n ++ r) = .ok (n, r) := by
  simp only [encodeU64, List.cons_append, List.nil_append, decodeU64, Except.ok.injEq,
    Prod.mk.injEq, and_true]
  simp only [U64MOD] at h
  omega

theorem decodeSeq_encodeList (t : BTy) (vs : List BValue)
    (ih : ∀ v ∈ vs, ∀ r, decodeVal t (encode v ++ r) = .ok (v, r)) (r : List Nat) :
    decodeSeq t vs.length (encodeList vs ++ r) = .ok (vs, r) := by
  induction vs generalizing r with
  | nil => simp [encodeList, decodeSeq]
  | cons v vs ihvs =>
      have hv := ih v (List.mem_cons_self v vs)
      have hrest : ∀ r, decodeSeq t vs.length (encodeList vs ++ r) = .ok (vs, r) :=
        fun r => ihvs (fun x hx r => ih x (List.mem_cons_of_mem v hx) r) r
      simp [encodeList, decodeSeq, List.append_assoc, hv, hrest]

theorem decodeVal_encode {v : BValue} {t : BTy} (h : WellTyped v t) :
    ∀ r, decodeVal t (encode v ++ r) = .ok (v, r) := by
  induction h with
  | u8 hn =>
      intro r
      simp [encode, decodeVal, Nat.mod_eq_of_lt hn]
  | u64 hn =>
      intro r
      simp [encode, decodeVal, decodeU64_encodeU64 hn]
  | bool =>
      intro r
      rename_i b
      cases b <;> simp [encode, decodeVal]
  | bytes hb hlen =>
      intro r
      rename_i bs
      simp only [encode, List.append_assoc, decodeVal, decodeU64_encodeU64 hlen]
      have htk : (bs ++ r).take bs.length = bs := List.take_left bs r
      have hdr : (bs ++ r).drop bs.length = r := List.drop_left bs r
      simp [htk, hdr]
  | pair ha hb iha ihb =>
      intro r
      simp [encode, decodeVal, List.append_assoc, iha, ihb]
  | optNone =>
      intro r
      simp [encode, decodeVal]
  | optSome hv ihv =>
      intro r
      simp [encode, decodeVal, ihv]
  | seq hvs hlen ihvs =>
      intro r
      rename_i vs t
      simp [encode, decodeVal, List.append_assoc, decodeU64_encodeU64 hlen,
        decodeSeq_encodeList t vs ihvs r]

theorem toBE4_length (n : Nat) : (toBE4 n).length = 4 := by
  simp [toBE4]

theorem fromBE4_toBE4_append {n : Nat} (h : n < 4294967296) (r : List Nat) :
    fromBE4 (toBE4 n ++ r) = n := by
  simp only [toBE4, List.cons_append, List.nil_append, fromBE4]
  omega

theorem readFrames_nil : readFrames [] = .ok [] := by
  rw [readFrames]
  simp

theorem readFrames_cons (p rest : List Nat) (hp : p.length ≤ maxFrameLen) :
    readFrames (toBE4 p.length ++ p ++ rest) =
      match readFrames rest with
      | .ok ps => .ok (p :: ps)
      | .error e => .error e := by
  have hn32 : p.length < 4294967296 := by
    simp only [maxFrameLen] at hp
    omega
  have hlen : (toBE4 p.length ++ p ++ rest).length = 4 + p.length + rest.length := by
    simp only [List.length_append, toBE4, List.length_cons, List.length_nil]
  have hfrom : fromBE4 (toBE4 p.length ++ p ++ rest) = p.length := by
    rw [List.append_assoc]
    exact fromBE4_toBE4_append hn32 _
  have hdrop4 : (toBE4 p.length ++ p ++ rest).drop 4 = p ++ rest := by
    rw [List.append_assoc]
    exact List.drop_left' (toBE4_length p.length)
  have hdropn : (toBE4 p.length ++ p ++ rest).drop (4 + p.length) = rest := by
    apply List.drop_left'
    simp only [List.length_append, toBE4, List.length_cons, List.length_nil]
  rw [readFrames]
  rw [if_neg (by rw [hlen]; omega)]
  rw [hfrom]
  rw [if_neg (by omega)]
  rw [dif_pos (by rw [hlen]; omega)]
  rw [hdropn, hdrop4, List.take_left]

theorem readFrames_framesBytes (ps : List (List Nat))
    (h : ∀ p ∈ ps, p.length ≤ maxFrameLen) :
    readFrames (framesBytes ps) = .ok ps := by
  induction ps with
  | nil => exact readFrames_nil
  | cons p ps ih =>
      have hp := h p (List.mem_cons_self p ps)
      have hps := ih (fun q hq => h q (List.mem_cons_of_mem p hq))
      rw [framesBytes, readFrames_cons p (framesBytes ps) hp, hps]

theorem writeFrames_ok (ps : List (List Nat))
    (h : ∀ p ∈ ps, p.length ≤ maxFrameLen) :
    writeFrames ps = .ok (framesBytes ps) := by
  induction ps with
  | nil => rfl
  | cons p ps ih =>
      have hp := h p (List.mem_cons_self p ps)
      have hps := ih (fun q hq => h q (List.mem_cons_of_mem p hq))
      rw [writeFrames, framesBytes, encodeFrame, if_neg (by omega), hps]

theorem readFrames_truncated (n : Nat) (t : List Nat) (hn : n ≤ maxFrameLen)
    (ht : t.length < n) :
    readFrames (toBE4 n ++ t) = .error (.io .other) := by
  have hn32 : n < 4294967296 := by
    simp only [maxFrameLen] at hn
    omega
  have hlen : (toBE4 n ++ t).length = 4 + t.length := by
    simp only [List.length_append, toBE4, List.length_cons, List.length_nil]
  rw [readFrames]
  rw [if_neg (by rw [hlen]; omega)]
  rw [fromBE4_toBE4_append hn32 t]
  rw [if_neg (by omega)]
  rw [dif_neg (by rw [hlen]; omega)]

theorem readFrames_frames_then_truncated (ps : List (List Nat)) (n : Nat) (t : List Nat)
    (h : ∀ p ∈ ps, p.length ≤ maxFrameLen) (hn : n ≤ maxFrameLen) (ht : t.length < n) :
    readFrames (framesBytes ps ++ (toBE4 n ++ t)) = .error (.io .other) := by
  induction ps with
  | nil =>
      rw [framesBytes, List.nil_append]
      exact readFrames_truncated n t hn ht
  | cons p ps ih =>
      have hp := h p (List.mem_cons_self p ps)
      have hps := ih (fun q hq => h q (List.mem_cons_of_mem p hq))
      rw [framesBytes, List.append_assoc (toBE4 p.length ++ p) (framesBytes ps) (toBE4 n ++ t)]
      rw [readFrames_cons p (framesBytes ps ++ (toBE4 n ++ t)) hp, hps]

/-- **C3**: for every sequence of payloads each of which fits the codec's
maximum frame length (in particular payloads of 0, 1, 4095, 4096 or
1 000 000 bytes), the framed sink emits, per payload, a fixed-width (4-byte)
length prefix whose decoded value is exactly the number of payload bytes that
follow, and reading the resulting byte stream back yields the identical
payloads in write (FIFO) order. -/
theorem framing_roundtrip (ps : List (List Nat))
    (h : ∀ p ∈ ps, p.length ≤ maxFrameLen) :
    writeFrames ps = .ok (framesBytes ps) ∧
    readFrames (framesBytes ps) = .ok ps ∧
    ∀ p ∈ ps, encodeFrame p = .ok (toBE4 p.length ++ p) ∧
      (toBE4 p.length).length = 4 ∧ fromBE4 (toBE4 p.length ++ p) = p.length := by
  refine ⟨writeFrames_ok ps h, readFrames_framesBytes ps h, fun p hp => ?_⟩
  have hple := h p hp
  have hn32 : p.length < 4294967296 := by
    simp only [maxFrameLen] at hple
    omega
  exact ⟨by rw [encodeFrame, if_neg (by omega)], toBE4_length p.length,
    fromBE4_toBE4_append hn32 p⟩

theorem framing_roundtrip_witness :
    (∀ p ∈ [([] : List Nat), [7], [1, 2, 3]], p.length ≤ maxFrameLen) ∧
    writeFrames [[], [7], [1, 2, 3]] = .ok (framesBytes [[], [7], [1, 2, 3]]) ∧
    readFrames (framesBytes [[], [7], [1, 2, 3]]) = .ok [[], [7], [1, 2, 3]] := by
  have h : ∀ p ∈ [([] : List Nat), [7], [1, 2, 3]], p.length ≤ maxFrameLen := by
    decide
  have main := framing_roundtrip [[], [7], [1, 2, 3]] h
  exact ⟨h, main.1, main.2.1⟩

/-- **C4**: a byte stream that ends in the middle of a frame — any number of
complete frames followed by a length prefix declaring `n` bytes of which only
`t.length < n` arrive before end-of-stream — makes the framed read side yield
the codec's "bytes remaining on stream" I/O error (the framing-failure
domain), never a partial or truncated frame as a successful result. -/
theorem framing_truncation_error (ps : List (List Nat)) (n : Nat) (t : List Nat)
    (h : ∀ p ∈ ps, p.length ≤ maxFrameLen) (hn : n ≤ maxFrameLen) (ht : t.length < n) :
    readFrames (framesBytes ps ++ (toBE4 n ++ t)) = .error (.io .other) :=
  readFrames_frames_then_truncated ps n t h hn ht

theorem framing_truncation_error_witness :
    ((∀ p ∈ [([9, 9] : List Nat)], p.length ≤ maxFrameLen) ∧ 5 ≤ maxFrameLen ∧
      ([1, 2] : List Nat).length < 5) ∧
    readFrames (framesBytes [[9, 9]] ++ (toBE4 5 ++ [1, 2])) = .error (.io .other) := by
  refine ⟨⟨by decide, by decide, by decide⟩, ?_⟩
  exact framing_truncation_error [[9, 9]] 5 [1, 2] (by decide) (by decide) (by decide)

/-- **C1**: for every value `v` representable in the serialization codec
(well-typed at serde shape `t`), decoding the bytes produced by encoding `v`
yields exactly `v`: `decode t (encode v) = Except.ok v`. -/
theorem decode_encode_id (v : BValue) (t : BTy) (h : WellTyped v t) :
    decode t (encode v) = .ok v := by
  have hv := decodeVal_encode h []
  rw [List.append_nil] at hv
  rw [decode, hv]

theorem decode_encode_id_witness :
    WellTyped (.pairV (.u64V 300) (.optV (some (.bytesV [1, 2, 250]))))
      (.pairT .u64T (.optT .bytesT)) ∧
    decode (.pairT .u64T (.optT .bytesT))
      (encode (.pairV (.u64V 300) (.optV (some (.bytesV [1, 2, 250]))))) =
      .ok (.pairV (.u64V 300) (.optV (some (.bytesV [1, 2, 250])))) := by
  have h : WellTyped (.pairV (.u64V 300) (.optV (some (.bytesV [1, 2, 250]))))
      (.pairT .u64T (.optT .bytesT)) :=
    .pair (.u64 (by decide)) (.optSome (.bytes (by decide) (by decide)))
  exact ⟨h, decode_encode_id _ _ h⟩

theorem Framework.stateAfter_eq (w k : Nat) :
    Framework.stateAfter w k = k % 2 ^ w := by
  induction k with
  | zero => rw [Framework.stateAfter, Framework.newNextId, Nat.zero_mod]
  | succ k ih =>
      rw [Framework.stateAfter, Framework.get_next_id, ih]
      exact Nat.mod_add_mod k (2 ^ w) 1

theorem Framework.nthId_eq (w k : Nat) : Framework.nthId w k = k % 2 ^ w := by
  rw [Framework.nthId, Framework.get_next_id, Framework.stateAfter_eq]

/-- **C5** counterexample: the claim fails for `N = 2 ^ 64 + 1` sequential
allocations on a 64-bit platform — the `usize` counter wraps, so allocation
number `2 ^ 64` (0-indexed) returns the same identity as allocation 0, and
the identities are neither pairwise distinct nor strictly increasing. -/
theorem get_next_id_wraps :
    Framework.nthId 64 (2 ^ 64) = Framework.nthId 64 0 ∧ 0 < 2 ^ 64 := by
  constructor
  · rw [Framework.nthId_eq, Framework.nthId_eq, Nat.mod_self, Nat.zero_mod]
  · exact pow_pos (by norm_num) 64

/-- **C5** (amended): as long as no more than `2 ^ w` identities are drawn
(`w` the platform's `usize` width), sequential allocations from one freshly
created `Framework` return pairwise distinct, strictly increasing
identities: allocation `i` returns a smaller identity than allocation `j`
whenever `i < j < 2 ^ w`. -/
theorem get_next_id_strict_mono (w i j : Nat) (hij : i < j) (hj : j < 2 ^ w) :
    Framework.nthId w i < Framework.nthId w j := by
  rw [Framework.nthId_eq, Framework.nthId_eq,
    Nat.mod_eq_of_lt (lt_trans hij hj), Nat.mod_eq_of_lt hj]
  exact hij

theorem get_next_id_strict_mono_witness :
    (0 < 1 ∧ 1 < 2 ^ 64) ∧ Framework.nthId 64 0 < Framework.nthId 64 1 :=
  ⟨⟨by decide, by decide⟩, get_next_id_strict_mono 64 0 1 (by decide) (by decide)⟩

/-- **C6** counterexample: the first stream identity allocated by a freshly
created `Framework` is not 1 — `Framework::new` initialises `next_id` to 0
and `get_next_id` returns the counter's value from BEFORE its increment. -/
theorem first_id_is_not_one :
    (Framework.get_next_id 64 Framework.newNextId).1 ≠ 1 := by
  decide

/-- **C6** (amended): the first identity allocated by a freshly created
`Framework` is 0, and 1 is only the second allocation's identity. -/
theorem first_id_is_zero :
    (Framework.get_next_id 64 Framework.newNextId).1 = 0 ∧
    Framework.nthId 64 0 = 0 ∧ Framework.nthId 64 1 = 1 := by
  refine ⟨rfl, by decide, ?_⟩
  rw [Framework.nthId_eq]
  decide

/-- **C9** (code bug): loop A of `webtransport_futures_bridge` does not stop
when the duplex's outbound side reaches end-of-stream.  A clean local close
makes the duplex read return `Ok(0)` (modelled `readOk []`), and the loop
body — having no `n == 0` break, and exiting only through `?` — truncates
the buffer to empty, still calls `tx.write`, and iterates again: in this
trace the loop performs two further network writes after the end-of-stream
read and has not terminated. -/
theorem loopA_spins_after_eof :
    loopARun [.readOk [1, 2] true, .readOk [] true, .readOk [] true] =
      ([[1, 2], [], []], false) := by
  decide

/-- **C10**: in each iteration of loop A, the bytes handed to the network
send stream are exactly the `n` bytes the duplex read returned: the
4096-byte zero-initialised buffer is truncated to the read count before
`tx.write(&buf)`, so no padding and no uninitialized zero bytes are ever
forwarded to the network. -/
theorem loopA_writes_exact (data : List Nat) (h : data.length ≤ BUFFER_SIZE) :
    loopAChunk data = data := by
  rw [loopAChunk]
  exact List.take_left data _

theorem loopA_writes_exact_witness :
    ([5, 6, 7] : List Nat).length ≤ BUFFER_SIZE ∧ loopAChunk [5, 6, 7] = [5, 6, 7] :=
  ⟨by decide, loopA_writes_exact [5, 6, 7] (by decide)⟩

/-- **C2** (code bug): loop B of `webtransport_futures_bridge` can drop
bytes, so the byte sequence delivered to the local duplex's readable side is
not always exactly the sequence S received from the network.  Concrete
trace: S arrives as the fragments `replicate 4095 7` and `[1, 2]`, and the
local reader drains nothing in between; the first write leaves 4095 bytes in
the 4096-byte duplex buffer, the single `write` call for the second fragment
accepts only the 1 byte of free space, and because the code ignores the
count `write` returns, the fragment's remaining byte `2` is discarded — the
delivered stream is one byte short of S. -/
theorem loopB_drops_bytes :
    loopBRun [List.replicate 4095 7, [1, 2]] [0, 0] 0 ≠
      concatAll [List.replicate 4095 7, [1, 2]] := by
  have hw1 : duplexWriteChunk (0 - 0) (List.replicate 4095 (7 : Nat)) =
      List.replicate 4095 7 := by
    rw [duplexWriteChunk, BUFFER_SIZE, Nat.sub_zero]
    exact List.take_of_length_le (by rw [List.length_replicate]; omega)
  have hw2 : duplexWriteChunk
      (0 - 0 + (List.replicate 4095 (7 : Nat)).length - 0) [1, 2] = [1] := by
    rw [duplexWriteChunk, BUFFER_SIZE, List.length_replicate]
    rfl
  have hrun : loopBRun [List.replicate 4095 7, [1, 2]] [0, 0] 0 =
      List.replicate 4095 7 ++ ([1] ++ []) := by
    rw [loopBRun, hw1, loopBRun, hw2, loopBRun]
  have hcat : concatAll [List.replicate 4095 7, [1, 2]] =
      List.replicate 4095 7 ++ ([1, 2] ++ []) := by
    rw [concatAll, concatAll, concatAll]
  rw [hrun, hcat]
  intro hEq
  have hlen := congrArg List.length hEq
  simp only [List.length_append, List.length_replicate, List.length_cons,
    List.length_nil] at hlen
  omega

/-- **C8** counterexample: the claim fails on the code — `FrameworkError`
cannot distinguish the spec's four failure domains.  It has only three
constructor tags, so no injective assignment of the domains
{serialization, framing, network, closed} to `FrameworkError` variants
exists; in particular no dedicated closed-transport (`ClosedError`) variant
is present. -/
theorem frameworkError_lacks_fourth_variant :
    ¬ ∃ f : ErrorDomain → FrameworkErrorTag, Function.Injective f := by
  decide

/-- **C8** (amended): the transport's error surface is the single tagged
type `FrameworkError` with exactly three variants — `Bincode` (serialization
failures), `WebSocket` (network/session failures) and `Io` (duplex I/O,
covering framing and closed-transport failures) — and every error value
carries one of these three tags. -/
theorem frameworkError_three_variants :
    Fintype.card FrameworkErrorTag = 3 ∧
    ∀ e : FrameworkError, tagOf e = .bincodeTag ∨ tagOf e = .webSocketTag ∨
      tagOf e = .ioTag := by
  refine ⟨by decide, fun e => ?_⟩
  cases e with
  | bincode e => exact Or.inl rfl
  | webSocket e => exact Or.inr (Or.inl rfl)
  | io e => exact Or.inr (Or.inr rfl)

/-- **C7** counterexample: a send on a closed transport does not fail with a
dedicated closed-transport error — it fails with
`FrameworkError::Io(BrokenPipe)`, and no `ClosedError` variant can exist:
there is no injective assignment of the spec's four failure domains to the
three variant tags of `FrameworkError`. -/
theorem closed_send_no_closedError :
    transportSend true (.boolV true) = .error (.io .brokenPipe) ∧
    ¬ ∃ f : ErrorDomain → FrameworkErrorTag, Function.Injective f := by
  constructor
  · rw [transportSend]
    norm_num [encode, maxFrameLen]
  · decide

/-- **C7** (amended): once the transport's duplex is closed, operations fail
immediately, but through the `Io` variant rather than a dedicated
`ClosedError`: every send of a value whose encoding fits the maximum frame
length fails with `FrameworkError::Io(BrokenPipe)`, and the receive stream,
its buffer exhausted, terminates (yields `none`) instead of blocking or
producing further values; nothing in the adapter reopens the transport. -/
theorem closed_transport_behavior (v : BValue)
    (h : (encode v).length ≤ maxFrameLen) :
    transportSend true v = .error (.io .brokenPipe) ∧
    transportRecvAtEof .boolT [] = .ok none := by
  constructor
  · have hno : ¬ (encode v).length > maxFrameLen := by omega
    simp [transportSend, hno]
  · rw [transportRecvAtEof]
    simp

theorem closed_transport_behavior_witness :
    (encode (.boolV true)).length ≤ maxFrameLen ∧
    transportSend true (.boolV true) = .error (.io .brokenPipe) := by
  have h : (encode (.boolV true)).length ≤ maxFrameLen := by
    norm_num [encode, maxFrameLen]
  exact ⟨h, (closed_transport_behavior (.boolV true) h).1⟩
